import Mathlib

/-
  Verification of the lookup-table layer of the OpenSMTPD portable snapshot:
  the static in-memory backend (src/unnamed/part_000, i.e. the table_static
  functions), the db(3) persistent backend (src/smtpd/table_db.c), and the
  per-service record decoders shared by both.

  C strings are modelled as lists of characters (the bytes before the
  terminating NUL); machine strings are assumed NUL-free.  The external
  collaborators named by the specification (the expansion-node parser
  alias_parse, the address-text parser text_to_netaddr, and the line parser
  table_config_parser) are not part of the shown source and are passed as
  function parameters, exactly as the specification treats them (external
  contracts, spec section 6).
-/

namespace OpenSMTPD

/-- C `isspace` in the C locale, restricted to the byte range the table code
feeds it: space, tab, newline, vertical tab, form feed, carriage return. -/
def c_isspace (c : Char) : Bool :=
  c = ' ' || c = '\t' || c = '\n' || c = '\x0b' || c = '\x0c' || c = '\r'

/-- Modelled from the spec: the "maximum protocol line length (a fixed
constant shared with the mail protocol layer)".  The constant `MAX_LINE_SIZE`
is defined in the header `smtpd.h` of this era of the repository, which is not
under `src/`; its value there is 1024. -/
def MAX_LINE_SIZE : Nat := 1024

/-- C `strlcpy` into a destination buffer of capacity `cap`: the destination
receives at most `cap - 1` characters of the source, always NUL-terminated. -/
def strlcpyBuf (src : List Char) (cap : Nat) : List Char :=
  src.take (cap - 1)

/-- C `strchr`: the index of the first occurrence of `c`, if any. -/
def strchr : List Char → Char → Option Nat
  | [], _ => none
  | a :: rest, c => if a = c then some 0 else (strchr rest c).map (· + 1)

/-- C `strsep` with separator `","` applied repeatedly until the line is
consumed: the list of comma-separated tokens.  An empty line yields one empty
token, a trailing comma yields a final empty token, exactly as the
`while ((subrcpt = strsep(&line, ",")))` loops observe. -/
def strsepList : List Char → List (List Char)
  | [] => [[]]
  | a :: rest =>
    if a = ',' then [] :: strsepList rest
    else
      match strsepList rest with
      | [] => [[a]]
      | t :: ts => (a :: t) :: ts

/-- The trailing-whitespace strip loop of the alias and virtual decoders:
`endp = subrcpt + strlen(subrcpt) - 1; while (subrcpt < endp && isspace(*endp))`.
The guard `subrcpt < endp` keeps the first character in place (the loop never
reaches it) and erases all trailing whitespace after it. -/
def c_rstrip : List Char → List Char
  | [] => []
  | a :: rest => a :: (rest.reverse.dropWhile c_isspace).reverse

/-- Per-token normalization of the alias and virtual decoders: strip leading
whitespace (`while (isspace(*subrcpt)) ++subrcpt`), fail when the remainder is
empty (`if (*subrcpt == 0) goto error`), then strip trailing whitespace. -/
def c_strip (tok : List Char) : Option (List Char) :=
  match tok.dropWhile c_isspace with
  | [] => none
  | s => some (c_rstrip s)

/-- The entry type of the static backend, C `struct mapel`: a key and the raw
stored value, kept in insertion order on the `t_contents` queue. -/
structure Mapel where
  me_key : List Char
  me_val : List Char

deriving instance DecidableEq for Mapel

/-- The fields of C `struct table` that the shown code reads and writes:
identity (bounded name, numeric id) plus the ordered entry queue of the
static backend. -/
structure Table where
  t_name : List Char
  t_id : Nat
  t_contents : List Mapel

deriving instance DecidableEq for Table

/-- The `enum table_service` values dispatched on by the lookup switch. -/
inductive TableService
  | K_ALIAS
  | K_CREDENTIALS
  | K_VIRTUAL
  | K_NETADDR

deriving instance DecidableEq for TableService

/-- C `struct table_credentials`: the two fixed-capacity result fields. -/
structure Credentials where
  username : List Char
  password : List Char

deriving instance DecidableEq for Credentials

/-- C `struct table_alias`: the accumulated expansion nodes (of the external
node type `α`) and the node counter `nbnodes`. -/
structure TableAlias (α : Type) where
  expand : List α
  nbnodes : Nat

deriving instance DecidableEq for TableAlias

/-- C `struct table_virtual`: same shape as `TableAlias`, a separate struct in
the source. -/
structure TableVirtual (α : Type) where
  expand : List α
  nbnodes : Nat

deriving instance DecidableEq for TableVirtual

/-- C `struct table_netaddr`: the parsed address structure (of the external
address type `β`). -/
structure TableNetaddr (β : Type) where
  netaddr : β

deriving instance DecidableEq for TableNetaddr

/-- The four decoded-record variants a lookup can hand back through `retp`. -/
inductive Record (α β : Type)
  | creds : Credentials → Record α β
  | alias : TableAlias α → Record α β
  | virt : TableVirtual α → Record α β
  | addr : TableNetaddr β → Record α β

deriving instance DecidableEq for Record

/-- C `table_static_credentials` (src/unnamed/part_000 lines 195..234); the
body of `table_db_credentials` is textually identical.  `ucap` and `pcap` are
the capacities of the fixed `username` and `password` fields of
`struct table_credentials` (the struct lives in `smtpd.h`, outside `src/`);
a `strlcpy` return of at least the capacity is the overflow failure.  The
result pairs the C return value (1 success, -1 decode error) with the record
written through `retp`. -/
def table_static_credentials (ucap pcap : Nat) (line : List Char) (len : Nat) :
    Int × Option Credentials :=
  if len < 3 then (-1, none)
  else if MAX_LINE_SIZE ≤ len then (-1, none)
  else
    match strchr line ':' with
    | none => (-1, none)
    | some p =>
      if p = 0 ∨ p = len - 1 then (-1, none)
      else
        let user := line.take p
        let pass := line.drop (p + 1)
        if ucap ≤ user.length then (-1, none)
        else if pcap ≤ pass.length then (-1, none)
        else (1, some ⟨user, pass⟩)

/-- The `strsep` loop shared by `table_static_alias` and
`table_static_virtual`, iterated over the comma tokens of the line: per token,
strip whitespace, reject an empty remainder, hand the trimmed token to the
external `alias_parse` collaborator `ap`, and accumulate the nodes in token
order (`expand_insert` and `nbnodes++`; `expand_insert` is not under `src/`
and is modelled from the spec as appending to the ordered node sequence).
Any failure discards everything accumulated (`expand_free` on the error
path). -/
def table_static_tokens {α : Type} (ap : List Char → Option α) :
    List (List Char) → Option (List α)
  | [] => some []
  | tok :: rest =>
    match c_strip tok with
    | none => none
    | some s =>
      match ap s with
      | none => none
      | some xn =>
        match table_static_tokens ap rest with
        | none => none
        | some xs => some (xn :: xs)

/-- C `table_static_alias` (src/unnamed/part_000 lines 236..272); the body of
`table_db_alias` is textually identical.  Returns 1 with the record on
success and -1 with no record on decode error. -/
def table_static_alias {α : Type} (ap : List Char → Option α)
    (key line : List Char) : Int × Option (TableAlias α) :=
  match table_static_tokens ap (strsepList line) with
  | none => (-1, none)
  | some xs => (1, some ⟨xs, xs.length⟩)

/-- C `table_static_virtual` (src/unnamed/part_000 lines 274..317); the body
of `table_db_virtual` is textually identical.  A key with no at-sign
short-circuits to success with no record; otherwise the same token loop as
the alias decoder runs, but the error path returns 0, not -1. -/
def table_static_virtual {α : Type} (ap : List Char → Option α)
    (key line : List Char) : Int × Option (TableVirtual α) :=
  if strchr key '@' = none then (1, none)
  else
    match table_static_tokens ap (strsepList line) with
    | none => (0, none)
    | some xs => (1, some ⟨xs, xs.length⟩)

/-- C `table_static_netaddr` (src/unnamed/part_000 lines 320..338); the body
of `table_db_netaddr` is textually identical.  `tp` is the external
`text_to_netaddr` collaborator; the error path returns 0, not -1. -/
def table_static_netaddr {β : Type} (tp : List Char → Option β)
    (key line : List Char) : Int × Option (TableNetaddr β) :=
  match tp line with
  | none => (0, none)
  | some a => (1, some ⟨a⟩)

/-- The `switch (kind)` dispatch of `table_static_lookup` (src/unnamed/
part_000 lines 150..170), run on the duplicated raw value `line` with
`len = strlen(line)`, factored out of the lookup so theorems can name it. -/
def table_static_decode {α β : Type} (ap : List Char → Option α)
    (tp : List Char → Option β) (ucap pcap : Nat) (key line : List Char)
    (kind : TableService) : Int × Option (Record α β) :=
  match kind with
  | TableService.K_ALIAS =>
    let r := table_static_alias ap key line
    (r.1, r.2.map Record.alias)
  | TableService.K_CREDENTIALS =>
    let r := table_static_credentials ucap pcap line line.length
    (r.1, r.2.map Record.creds)
  | TableService.K_VIRTUAL =>
    let r := table_static_virtual ap key line
    (r.1, r.2.map Record.virt)
  | TableService.K_NETADDR =>
    let r := table_static_netaddr tp key line
    (r.1, r.2.map Record.addr)

/-- C `table_static_lookup` (src/unnamed/part_000 lines 123..175).  The
`TAILQ_FOREACH` scan with `strcmp` stops at the first entry whose key equals
the lookup key.  `retpNull` models calling with `retp == NULL`: only the
presence indication is returned and no decoding happens.  Otherwise a missing
entry yields `(0, none)` and a present entry is `strdup`ed and dispatched to
the decoder for `kind`.  (The `strdup` out-of-memory return of -1 is outside
the model.) -/
def table_static_lookup {α β : Type} (ap : List Char → Option α)
    (tp : List Char → Option β) (ucap pcap : Nat) (m : Table)
    (key : List Char) (kind : TableService) (retpNull : Bool) :
    Int × Option (Record α β) :=
  let me := m.t_contents.find? (fun e => e.me_key == key)
  if retpNull then
    (if me.isSome then 1 else 0, none)
  else
    match me with
    | none => (0, none)
    | some e => table_static_decode ap tp ucap pcap key e.me_val kind

/-- The `TAILQ_FOREACH` loop of C `table_static_compare` (src/unnamed/
part_000 lines 177..193) over the entry queue: stop with 1 at the first entry
on which the caller-supplied predicate holds, 0 otherwise. -/
def table_static_compare_loop (key : List Char)
    (func : List Char → List Char → Bool) : List Mapel → Bool
  | [] => false
  | e :: rest =>
    if func key e.me_key then true else table_static_compare_loop key func rest

/-- C `table_static_compare`: the loop above on the table contents; the
`kind` argument is accepted and unused, as in the source. -/
def table_static_compare (m : Table) (key : List Char) (kind : TableService)
    (func : List Char → List Char → Bool) : Bool :=
  table_static_compare_loop key func m.t_contents

/-- Ghost instrumentation of the `table_static_compare` loop: the second
arguments of the calls the loop makes to `func`, in order.  The loop body
invokes `func` once per visited entry and breaks right after the first
success, so the call list ends at the first matching key. -/
def table_static_compare_calls (key : List Char)
    (func : List Char → List Char → Bool) : List Mapel → List (List Char)
  | [] => []
  | e :: rest =>
    e.me_key ::
      (if func key e.me_key then []
       else table_static_compare_calls key func rest)

/-- C `table_db_credentials` (src/smtpd/table_db.c lines 184..223): the body
is textually identical to `table_static_credentials`. -/
def table_db_credentials (ucap pcap : Nat) (line : List Char) (len : Nat) :
    Int × Option Credentials :=
  table_static_credentials ucap pcap line len

/-- C `table_db_alias` (src/smtpd/table_db.c lines 225..261): the body is
textually identical to `table_static_alias`. -/
def table_db_alias {α : Type} (ap : List Char → Option α)
    (key line : List Char) : Int × Option (TableAlias α) :=
  table_static_alias ap key line

/-- C `table_db_virtual` (src/smtpd/table_db.c lines 263..306): the body is
textually identical to `table_static_virtual`. -/
def table_db_virtual {α : Type} (ap : List Char → Option α)
    (key line : List Char) : Int × Option (TableVirtual α) :=
  table_static_virtual ap key line

/-- C `table_db_netaddr` (src/smtpd/table_db.c lines 309..326): the body is
textually identical to `table_static_netaddr`. -/
def table_db_netaddr {β : Type} (tp : List Char → Option β)
    (key line : List Char) : Int × Option (TableNetaddr β) :=
  table_static_netaddr tp key line

/-- Result of C `table_db_get_entry`: `errx(1, ...)` terminates the whole
process (`fatal`), a failed `db->get` is `absent`, otherwise the value bytes
are duplicated and returned. -/
inductive DbGetResult
  | fatal
  | absent
  | found : List Char → DbGetResult

deriving instance DecidableEq for DbGetResult

/-- C `table_db_get_entry` (src/smtpd/table_db.c lines 161..182).  The key is
`strlcpy`ed into a `char pkey[MAX_LINE_SIZE]` buffer; a return of at least
the buffer size — that is, a key whose NUL-terminated form does not fit —
aborts the process with `errx(1, "table_db_get_entry: key too long")`.  The
external hashed store is modelled per the spec as an exact-match key to value
association, here an ordered pair list. -/
def table_db_get_entry (db : List (List Char × List Char))
    (key : List Char) : DbGetResult :=
  if MAX_LINE_SIZE ≤ key.length then DbGetResult.fatal
  else
    match db.find? (fun e => e.1 == key) with
    | none => DbGetResult.absent
    | some e => DbGetResult.found e.2

/-- Result of C `table_db_lookup` as observed by its caller: either the
process was terminated inside `table_db_get_entry`, or a return code paired
with the record written through `retp`. -/
inductive DbLookupResult (α β : Type)
  | fatal : DbLookupResult α β
  | ret : Int → Option (Record α β) → DbLookupResult α β

deriving instance DecidableEq for DbLookupResult

/-- C `table_db_lookup` (src/smtpd/table_db.c lines 99..135): fetch the entry
(`len` receives `dbv.size`, modelled as the stored byte count), return 0 when
absent, otherwise dispatch on `kind` exactly as the static lookup does. -/
def table_db_lookup {α β : Type} (ap : List Char → Option α)
    (tp : List Char → Option β) (ucap pcap : Nat)
    (db : List (List Char × List Char)) (key : List Char)
    (kind : TableService) : DbLookupResult α β :=
  match table_db_get_entry db key with
  | DbGetResult.fatal => DbLookupResult.fatal
  | DbGetResult.absent => DbLookupResult.ret 0 none
  | DbGetResult.found v =>
    match kind with
    | TableService.K_ALIAS =>
      let r := table_db_alias ap key v
      DbLookupResult.ret r.1 (r.2.map Record.alias)
    | TableService.K_CREDENTIALS =>
      let r := table_db_credentials ucap pcap v v.length
      DbLookupResult.ret r.1 (r.2.map Record.creds)
    | TableService.K_VIRTUAL =>
      let r := table_db_virtual ap key v
      DbLookupResult.ret r.1 (r.2.map Record.virt)
    | TableService.K_NETADDR =>
      let r := table_db_netaddr tp key v
      DbLookupResult.ret r.1 (r.2.map Record.addr)

/-- The `db->seq` scan loop of C `table_db_compare` (src/smtpd/table_db.c
lines 137..159) over the ordered key sequence of the external store: the
stored key bytes are duplicated into `buf` and the caller-supplied predicate
is invoked as `func(key, buf)`; the loop breaks with 1 right after the first
success and yields 0 when the scan is exhausted. -/
def table_db_compare_loop (key : List Char)
    (func : List Char → List Char → Bool) :
    List (List Char × List Char) → Bool
  | [] => false
  | e :: rest =>
    if func key e.1 then true else table_db_compare_loop key func rest

/-- C `table_db_compare`: the scan loop over the store; `kind` is unused. -/
def table_db_compare (db : List (List Char × List Char)) (key : List Char)
    (kind : TableService) (func : List Char → List Char → Bool) : Bool :=
  table_db_compare_loop key func db

/-- Ghost instrumentation of the `table_db_compare` scan: the second
arguments of the calls it makes to `func`, in order. -/
def table_db_compare_calls (key : List Char)
    (func : List Char → List Char → Bool) :
    List (List Char × List Char) → List (List Char)
  | [] => []
  | e :: rest =>
    e.1 :: (if func key e.1 then [] else table_db_compare_calls key func rest)

/-- Which of the two table structs `table_static_update` passed to
`table_destroy`. -/
inductive UpdDestroyed
  | neither
  | live
  | transient

deriving instance DecidableEq for UpdDestroyed

/-- Everything observable about one `table_static_update` call: the C return
value, the final field values of the struct the caller passed in (the live
address), the final field values of the transient struct when one was
created, and which struct was destroyed. -/
structure UpdateOutcome where
  ret : Int
  table : Table
  tfinal : Option Table
  destroyed : UpdDestroyed

deriving instance DecidableEq for UpdateOutcome

/-- C `table_static_update` (src/unnamed/part_000 lines 74..109).  With no
config it returns 1 at once.  Otherwise `table_create` (not under `src/`;
modelled from the spec as producing a fresh transient table, abstracted by
its fresh identity `nn`, `nid` and empty contents) is followed by the
configure path (`table_config_parser`, also not under `src/`, abstracted as
the external line-parser collaborator `parser`).  On parser failure the
transient struct is destroyed and 0 is returned with the live struct
untouched.  On success the two `t_name` fields are exchanged through a local
`char name[MAX_LINE_SIZE]` holder (three `strlcpy` calls) and the two `t_id`
fields through the three-step exclusive-or, after which `table_destroy` is
called on `table` — the struct the caller passed in. -/
def table_static_update (parser : List Char → Option (List Mapel))
    (nn : List Char) (nid : Nat) (table : Table)
    (config : Option (List Char)) : UpdateOutcome :=
  match config with
  | none => ⟨1, table, none, UpdDestroyed.neither⟩
  | some cfg =>
    let t0 : Table := ⟨nn, nid, []⟩
    match parser cfg with
    | none => ⟨0, table, some t0, UpdDestroyed.transient⟩
    | some es =>
      let t1 : Table := ⟨t0.t_name, t0.t_id, es⟩
      let name := strlcpyBuf table.t_name MAX_LINE_SIZE
      let tbName := strlcpyBuf t1.t_name MAX_LINE_SIZE
      let tName := strlcpyBuf name MAX_LINE_SIZE
      let x1 := table.t_id ^^^ t1.t_id
      let y1 := x1 ^^^ t1.t_id
      let x2 := x1 ^^^ y1
      ⟨1, ⟨tbName, x2, table.t_contents⟩, some ⟨tName, y1, es⟩,
        UpdDestroyed.live⟩

/-- String literal to modelled C string. -/
def cs (s : String) : List Char := s.toList

/-! Helper lemmas shared by the claim theorems. -/

lemma xor_swap_second (a b : Nat) : (a ^^^ b) ^^^ b = a :=
  Nat.xor_cancel_right b a

lemma xor_swap_third (a b : Nat) : (a ^^^ b) ^^^ a = b := by
  rw [Nat.xor_comm a b]
  exact Nat.xor_cancel_right a b

/-! ### Claim C1 -/

/-- C1: for every static-backend table and every configuration string on
which construction of the transient table fails (the configure path of the
freshly created table rejects the configuration), `table_static_update`
returns failure (0) and leaves the live table completely unmodified — name,
id and entry contents all unchanged. -/
theorem table_static_update_failure_spec
    (parser : List Char → Option (List Mapel)) (nn : List Char) (nid : Nat)
    (tb : Table) (cfg : List Char) (hp : parser cfg = none) :
    (table_static_update parser nn nid tb (some cfg)).ret = 0 ∧
    (table_static_update parser nn nid tb (some cfg)).table = tb := by
  simp [table_static_update, hp]

/-- Witness for C1: a concrete failing update leaves the concrete table
exactly as it was and reports failure. -/
theorem table_static_update_failure_witness :
    (table_static_update (fun _ => none) (cs "dyn") 2
        ⟨cs "foo", 1, [⟨cs "k1", cs "v1"⟩]⟩ (some (cs "bad line"))).ret = 0 ∧
    (table_static_update (fun _ => none) (cs "dyn") 2
        ⟨cs "foo", 1, [⟨cs "k1", cs "v1"⟩]⟩ (some (cs "bad line"))).table =
      ⟨cs "foo", 1, [⟨cs "k1", cs "v1"⟩]⟩ :=
  table_static_update_failure_spec _ _ _ _ _ rfl

/-! ### Claim C2 -/

/-- Counterexample to C2 as stated.  On a concrete successful update the
code destroys the struct the caller passed in (the live table `T`), not the
transient table: `destroyed = live`, which differs from the claimed
`transient`.  Moreover the struct at the live address still holds the OLD
entry contents at the moment it is destroyed, and the new content sits in
the surviving transient struct at a different address — so existing
references to `T` do not remain valid and do not observe the new content. -/
theorem table_static_update_claim_counterexample :
    (table_static_update (fun _ => some [⟨cs "k2", cs "v2"⟩]) (cs "dyn") 2
        ⟨cs "foo", 1, [⟨cs "k1", cs "v1"⟩]⟩ (some (cs "k2 v2"))).ret = 1 ∧
    (table_static_update (fun _ => some [⟨cs "k2", cs "v2"⟩]) (cs "dyn") 2
        ⟨cs "foo", 1, [⟨cs "k1", cs "v1"⟩]⟩
        (some (cs "k2 v2"))).destroyed = UpdDestroyed.live ∧
    UpdDestroyed.live ≠ UpdDestroyed.transient ∧
    (table_static_update (fun _ => some [⟨cs "k2", cs "v2"⟩]) (cs "dyn") 2
        ⟨cs "foo", 1, [⟨cs "k1", cs "v1"⟩]⟩
        (some (cs "k2 v2"))).table.t_contents = [⟨cs "k1", cs "v1"⟩] ∧
    (table_static_update (fun _ => some [⟨cs "k2", cs "v2"⟩]) (cs "dyn") 2
        ⟨cs "foo", 1, [⟨cs "k1", cs "v1"⟩]⟩
        (some (cs "k2 v2"))).tfinal =
      some ⟨cs "foo", 1, [⟨cs "k2", cs "v2"⟩]⟩ := by
  decide

/-- C2 amended: a successful update exchanges the name and id identity
fields between the live table `T` and the transient table, then destroys `T`
itself, which after the swap holds the old entry contents under the
transient identity; the transient struct survives at its own address,
carrying the original name and id of `T` together with the new content, so
the updated table is reachable under the identity of `T` but at the address
of the transient struct, and direct pointers to `T` are invalidated. -/
theorem table_static_update_success_spec
    (parser : List Char → Option (List Mapel)) (nn : List Char) (nid : Nat)
    (tb : Table) (cfg : List Char) (es : List Mapel)
    (hp : parser cfg = some es)
    (h1 : tb.t_name.length ≤ MAX_LINE_SIZE - 1)
    (h2 : nn.length ≤ MAX_LINE_SIZE - 1) :
    table_static_update parser nn nid tb (some cfg) =
      ⟨1, ⟨nn, nid, tb.t_contents⟩, some ⟨tb.t_name, tb.t_id, es⟩,
        UpdDestroyed.live⟩ := by
  have hy : (tb.t_id ^^^ nid) ^^^ nid = tb.t_id := xor_swap_second tb.t_id nid
  have hx : (tb.t_id ^^^ nid) ^^^ tb.t_id = nid := xor_swap_third tb.t_id nid
  have hn2 : nn.take (MAX_LINE_SIZE - 1) = nn := List.take_of_length_le h2
  have hn1 : (tb.t_name.take (MAX_LINE_SIZE - 1)).take (MAX_LINE_SIZE - 1)
      = tb.t_name := by
    rw [List.take_take, min_self]
    exact List.take_of_length_le h1
  simp [table_static_update, hp, strlcpyBuf, hn1, hn2, hy, hx]

/-- Witness for the amended C2 theorem at concrete inputs. -/
theorem table_static_update_success_witness :
    table_static_update (fun _ => some [⟨cs "ka", cs "va"⟩]) (cs "dynN") 7
        ⟨cs "bar", 3, [⟨cs "k0", cs "v0"⟩]⟩ (some (cs "ka va")) =
      ⟨1, ⟨cs "dynN", 7, [⟨cs "k0", cs "v0"⟩]⟩,
        some ⟨cs "bar", 3, [⟨cs "ka", cs "va"⟩]⟩, UpdDestroyed.live⟩ :=
  table_static_update_success_spec _ _ _ _ _ _ rfl (by decide) (by decide)

/-! ### Claim C3 -/

lemma credentials_cases (ucap pcap : Nat) (line : List Char) (len : Nat) :
    table_static_credentials ucap pcap line len = (-1, none) ∨
    ∃ c, table_static_credentials ucap pcap line len = (1, some c) := by
  unfold table_static_credentials
  split
  · exact Or.inl rfl
  split
  · exact Or.inl rfl
  split
  · exact Or.inl rfl
  split
  · exact Or.inl rfl
  dsimp only
  split
  · exact Or.inl rfl
  split
  · exact Or.inl rfl
  exact Or.inr ⟨_, rfl⟩

lemma alias_cases {α : Type} (ap : List Char → Option α)
    (key line : List Char) :
    table_static_alias ap key line = (-1, none) ∨
    ∃ xs, table_static_alias ap key line = (1, some ⟨xs, xs.length⟩) := by
  rcases h : table_static_tokens ap (strsepList line) with _ | xs
  · exact Or.inl (by simp [table_static_alias, h])
  · exact Or.inr ⟨xs, by simp [table_static_alias, h]⟩

lemma virtual_cases {α : Type} (ap : List Char → Option α)
    (key line : List Char) (hk : (strchr key '@').isSome) :
    table_static_virtual ap key line = (0, none) ∨
    ∃ xs, table_static_virtual ap key line = (1, some ⟨xs, xs.length⟩) := by
  have hk2 : ¬ strchr key '@' = none := by
    intro hc
    rw [hc] at hk
    exact Bool.noConfusion hk
  rcases h : table_static_tokens ap (strsepList line) with _ | xs
  · exact Or.inl (by simp [table_static_virtual, h, hk2])
  · exact Or.inr ⟨xs, by simp [table_static_virtual, h, hk2]⟩

lemma netaddr_cases {β : Type} (tp : List Char → Option β)
    (key line : List Char) :
    table_static_netaddr tp key line = (0, none) ∨
    ∃ a, table_static_netaddr tp key line = (1, some ⟨a⟩) := by
  rcases h : tp line with _ | a
  · exact Or.inl (by simp [table_static_netaddr, h])
  · exact Or.inr ⟨a, by simp [table_static_netaddr, h]⟩

/-- Counterexample to C3 as stated.  For the NetAddr kind a present but
malformed raw value (the external address parser rejects it) makes the
whole lookup return `(0, none)` — byte for byte the same observable result
as a lookup for a key with no entry at all.  The decode failure is therefore
NOT distinguishable from the not-found result for this kind (the same holds
for Virtual), contrary to the claim. -/
theorem decode_error_indistinguishable_counterexample :
    table_static_lookup (α := Unit) (β := Unit) (fun _ => none) (fun _ => none)
        1024 1024 ⟨cs "T", 1, [⟨cs "k", cs "not an address"⟩]⟩ (cs "k")
        TableService.K_NETADDR false = (0, none) ∧
    table_static_lookup (α := Unit) (β := Unit) (fun _ => none) (fun _ => none)
        1024 1024 ⟨cs "T", 1, []⟩ (cs "k") TableService.K_NETADDR false
      = (0, none) := by
  constructor <;> rfl

/-- C3 amended: no decoder ever returns a partial record, but the failure
codes split by kind: a malformed value yields the typed failure -1,
distinct from the not-found code 0, for the Credentials and Alias kinds,
while for Virtual (on a user-qualified key) and NetAddr a malformed value
yields return code 0 with no record, which at the lookup interface is
indistinguishable from absence. -/
theorem decode_error_codes_spec {α β : Type} (ap : List Char → Option α)
    (tp : List Char → Option β) (ucap pcap : Nat) (key line : List Char)
    (len : Nat) :
    ((table_static_credentials ucap pcap line len).2 = none →
      (table_static_credentials ucap pcap line len).1 = -1) ∧
    ((table_static_alias ap key line).2 = none →
      (table_static_alias ap key line).1 = -1) ∧
    ((strchr key '@').isSome →
      (table_static_virtual ap key line).2 = none →
      (table_static_virtual ap key line).1 = 0) ∧
    ((table_static_netaddr tp key line).2 = none →
      (table_static_netaddr tp key line).1 = 0) := by
  refine ⟨?_, ?_, ?_, ?_⟩
  · rcases credentials_cases ucap pcap line len with h | ⟨c, h⟩ <;>
      simp [h]
  · rcases alias_cases ap key line with h | ⟨xs, h⟩ <;> simp [h]
  · intro hk
    rcases virtual_cases ap key line hk with h | ⟨xs, h⟩ <;> simp [h]
  · rcases netaddr_cases tp key line with h | ⟨a, h⟩ <;> simp [h]

/-- Witness for the amended C3 theorem: concrete malformed values for each
kind, showing the concrete return codes. -/
theorem decode_error_codes_witness :
    (table_static_credentials 1024 1024 (cs "x") 1).1 = -1 ∧
    (table_static_alias (α := Unit) (fun _ => none) (cs "a@b") (cs "x")).1
      = -1 ∧
    (table_static_virtual (α := Unit) (fun _ => none) (cs "a@b") (cs "x")).1
      = 0 ∧
    (table_static_netaddr (β := Unit) (fun _ => none) (cs "a@b") (cs "x")).1
      = 0 := by
  obtain ⟨h1, h2, h3, h4⟩ := decode_error_codes_spec (α := Unit) (β := Unit)
    (fun _ => none) (fun _ => none) 1024 1024 (cs "a@b") (cs "x") 1
  exact ⟨h1 rfl, h2 rfl, h3 (by decide) rfl, h4 rfl⟩

/-! ### Claim C4 -/

lemma strchr_some_lt {l : List Char} {c : Char} {p : Nat}
    (h : strchr l c = some p) : p < l.length := by
  induction l generalizing p with
  | nil => simp [strchr] at h
  | cons a rest ih =>
    rw [strchr] at h
    by_cases hac : a = c
    · simp [hac] at h
      simp only [List.length_cons]
      omega
    · simp [hac, Option.map_eq_some'] at h
      obtain ⟨q, hq, hqp⟩ := h
      have := ih hq
      simp only [List.length_cons]
      omega

/-- The success condition of the credentials decoder as the amended claim
reads it: the length gates hold, the FIRST colon (the index `strchr` finds)
is neither the first nor the last character, and the two halves around it
fit their field capacities. -/
def credSuccessCond (ucap pcap : Nat) (line : List Char) (len : Nat) : Prop :=
  3 ≤ len ∧ len < MAX_LINE_SIZE ∧
  ∃ p ∈ (strchr line ':').toList,
    0 < p ∧ p + 1 < len ∧
    (line.take p).length < ucap ∧ (line.drop (p + 1)).length < pcap

instance (ucap pcap : Nat) (line : List Char) (len : Nat) :
    Decidable (credSuccessCond ucap pcap line len) := by
  unfold credSuccessCond
  infer_instance

lemma credentials_success_cond {ucap pcap : Nat} {line : List Char}
    {c : Credentials}
    (h : table_static_credentials ucap pcap line line.length = (1, some c)) :
    credSuccessCond ucap pcap line line.length := by
  unfold table_static_credentials at h
  split at h
  · simp at h
  split at h
  · simp at h
  split at h
  · simp at h
  rename_i hlt3 hMLS x p hcol
  split at h
  · simp at h
  dsimp only at h
  split at h
  · simp at h
  split at h
  · simp at h
  rename_i hsplit hu hpw
  have hplen : p < line.length := strchr_some_lt hcol
  refine ⟨by omega, by omega, p, by simp [hcol], by omega, by omega,
    by omega, by omega⟩

/-- Counterexample to C4 as stated.  The raw value `":a:b"` (length 4)
satisfies every success condition of the claim read literally: the length
gates hold, the value CONTAINS a colon that is neither the first nor the
last character (index 2), and both halves around the first colon fit fields
of capacity 1024 — yet the decoder fails with the typed error, because the
FIRST colon is the first character.  The claim must say "the first colon is
neither the first nor the last character". -/
theorem table_static_credentials_claim_counterexample :
    [':', 'a', ':', 'b'].length = 4 ∧
    3 ≤ 4 ∧ 4 < MAX_LINE_SIZE ∧
    [':', 'a', ':', 'b'][2]? = some ':' ∧ (2 : Nat) ≠ 0 ∧
    (2 : Nat) ≠ 4 - 1 ∧
    (List.take 0 [':', 'a', ':', 'b']).length < 1024 ∧
    (List.drop 1 [':', 'a', ':', 'b']).length < 1024 ∧
    table_static_credentials 1024 1024 [':', 'a', ':', 'b'] 4
      = (-1, none) := by
  decide

/-- C4 amended: for every raw value of length `len = strlen(line)`, the
credentials decoder succeeds exactly when `3 ≤ len`, `len` is below the
maximum protocol line length, the FIRST colon is neither the first nor the
last character, and both halves around the first colon fit their
fixed-capacity fields; on success the username is the text before the first
colon and the password the text after it, and in every other case the
result is the typed decode error `(-1, none)`, not absence. -/
theorem table_static_credentials_spec (ucap pcap : Nat) (line : List Char) :
    (credSuccessCond ucap pcap line line.length →
      ∃ p ∈ (strchr line ':').toList,
        table_static_credentials ucap pcap line line.length
          = (1, some ⟨line.take p, line.drop (p + 1)⟩)) ∧
    (¬ credSuccessCond ucap pcap line line.length →
      table_static_credentials ucap pcap line line.length = (-1, none)) := by
  constructor
  · rintro ⟨h3, hM, p, hp, hp0, hpl, hu, hpw⟩
    have hcol : strchr line ':' = some p := by simpa using hp
    have g1 : ¬ line.length < 3 := by omega
    have g2 : ¬ MAX_LINE_SIZE ≤ line.length := by omega
    have g3 : ¬ (p = 0 ∨ p = line.length - 1) := by omega
    have g4 : ¬ ucap ≤ (line.take p).length := by omega
    have g5 : ¬ pcap ≤ (line.drop (p + 1)).length := by omega
    refine ⟨p, by simp [hcol], ?_⟩
    unfold table_static_credentials
    rw [if_neg g1, if_neg g2, hcol]
    dsimp only
    rw [if_neg g3, if_neg g4, if_neg g5]
  · intro hn
    rcases credentials_cases ucap pcap line line.length with h | ⟨c, h⟩
    · exact h
    · exact absurd (credentials_success_cond h) hn

/-- Witness for the amended C4 theorem: decoding `"alice:s3cret"` succeeds
and splits at the first colon. -/
theorem table_static_credentials_spec_witness :
    ∃ p ∈ (strchr (cs "alice:s3cret") ':').toList,
      table_static_credentials 1024 1024 (cs "alice:s3cret")
          (cs "alice:s3cret").length
        = (1, some ⟨(cs "alice:s3cret").take p,
            (cs "alice:s3cret").drop (p + 1)⟩) :=
  (table_static_credentials_spec 1024 1024 (cs "alice:s3cret")).1 (by decide)

/-! ### Claim C5 -/

lemma tokens_eq_some_iff {α : Type} (ap : List Char → Option α)
    (ts : List (List Char)) (xs : List α) :
    table_static_tokens ap ts = some xs ↔
    List.Forall₂ (fun t x => (c_strip t).bind ap = some x) ts xs := by
  induction ts generalizing xs with
  | nil =>
    cases xs <;> simp [table_static_tokens]
  | cons tok rest ih =>
    simp only [table_static_tokens]
    rcases hstrip : c_strip tok with _ | s
    · dsimp only
      constructor
      · intro h
        simp at h
      · intro h
        cases xs with
        | nil => cases h
        | cons x xs2 =>
          cases h with
          | cons hrel hrest =>
            rw [hstrip] at hrel
            simp at hrel
    · dsimp only
      rcases hap : ap s with _ | xn
      · dsimp only
        constructor
        · intro h
          simp at h
        · intro h
          cases xs with
          | nil => cases h
          | cons x xs2 =>
            cases h with
            | cons hrel hrest =>
              rw [hstrip] at hrel
              simp [hap] at hrel
      · dsimp only
        rcases hrec : table_static_tokens ap rest with _ | ys
        · dsimp only
          constructor
          · intro h
            simp at h
          · intro h
            cases xs with
            | nil => cases h
            | cons x xs2 =>
              cases h with
              | cons hrel hrest =>
                have hcontra := (ih xs2).mpr hrest
                rw [hrec] at hcontra
                simp at hcontra
        · dsimp only
          constructor
          · intro h
            have hxs : xs = xn :: ys := by
              have := h.symm
              simpa using this
            subst hxs
            constructor
            · rw [hstrip]
              simpa using hap
            · exact (ih ys).mp hrec
          · intro h
            cases xs with
            | nil => cases h
            | cons x xs2 =>
              cases h with
              | cons hrel hrest =>
                rw [hstrip] at hrel
                simp [hap] at hrel
                have hys := (ih xs2).mpr hrest
                rw [hrec] at hys
                simp at hys
                rw [hrel, hys]

lemma tokens_eq_none_iff {α : Type} (ap : List Char → Option α)
    (ts : List (List Char)) :
    table_static_tokens ap ts = none ↔
    ∃ t ∈ ts, (c_strip t).bind ap = none := by
  induction ts with
  | nil => simp [table_static_tokens]
  | cons tok rest ih =>
    simp only [table_static_tokens]
    rcases hstrip : c_strip tok with _ | s
    · dsimp only
      constructor
      · intro _
        exact ⟨tok, by simp, by rw [hstrip]; rfl⟩
      · intro _
        rfl
    · dsimp only
      rcases hap : ap s with _ | xn
      · dsimp only
        constructor
        · intro _
          refine ⟨tok, by simp, ?_⟩
          rw [hstrip]
          simpa using hap
        · intro _
          rfl
      · dsimp only
        rcases hrec : table_static_tokens ap rest with _ | ys
        · dsimp only
          constructor
          · intro _
            obtain ⟨t, ht, hb⟩ := ih.mp hrec
            exact ⟨t, by simp [ht], hb⟩
          · intro _
            rfl
        · dsimp only
          constructor
          · intro h
            simp at h
          · rintro ⟨t, ht, hb⟩
            rcases List.mem_cons.mp ht with rfl | ht2
            · rw [hstrip] at hb
              simp [hap] at hb
            · have hcontra := ih.mpr ⟨t, ht2, hb⟩
              rw [hrec] at hcontra
              simp at hcontra

/-- C5: the alias decoder splits the raw value on commas; if every token,
after stripping leading and trailing whitespace, is non-empty and accepted
by the external expansion-node parser, the decode succeeds with exactly one
node per token in token order (witnessed by the elementwise `Forall₂`
relation between the token list and the node list); if any token is empty
after trimming or is rejected by the parser, the entire decode fails with
the typed error and zero nodes — all previously accumulated nodes are
discarded. -/
theorem table_static_alias_spec {α : Type} (ap : List Char → Option α)
    (key line : List Char) :
    ((∃ t ∈ strsepList line, (c_strip t).bind ap = none) →
      table_static_alias ap key line = (-1, none)) ∧
    ((∀ t ∈ strsepList line, ((c_strip t).bind ap).isSome) →
      ∃ xs, table_static_alias ap key line = (1, some ⟨xs, xs.length⟩) ∧
        List.Forall₂ (fun t x => (c_strip t).bind ap = some x)
          (strsepList line) xs) := by
  constructor
  · intro h
    have hnone := (tokens_eq_none_iff ap (strsepList line)).mpr h
    simp [table_static_alias, hnone]
  · intro h
    have hx : ∃ xs, table_static_tokens ap (strsepList line) = some xs := by
      rcases hrec : table_static_tokens ap (strsepList line) with _ | xs
      · obtain ⟨t, ht, hb⟩ := (tokens_eq_none_iff ap (strsepList line)).mp hrec
        have hs := h t ht
        rw [hb] at hs
        simp at hs
      · exact ⟨xs, rfl⟩
    obtain ⟨xs, hxs⟩ := hx
    exact ⟨xs, by simp [table_static_alias, hxs],
      (tokens_eq_some_iff ap _ xs).mp hxs⟩

/-- Witness for C5: the raw value with an empty token fails wholesale with
zero nodes, and the three-recipient value of the spec decodes to one node
per token in order. -/
theorem table_static_alias_spec_witness :
    table_static_alias (fun s : List Char => some s) (cs "k")
        (cs "bob@x,,carol@y") = (-1, none) ∧
    ∃ xs, table_static_alias (fun s : List Char => some s) (cs "k")
        (cs "bob@x, carol@y ,  dave@z") = (1, some ⟨xs, xs.length⟩) ∧
      List.Forall₂
        (fun t x => (c_strip t).bind (fun s : List Char => some s) = some x)
        (strsepList (cs "bob@x, carol@y ,  dave@z")) xs :=
  ⟨(table_static_alias_spec _ (cs "k") _).1 (by decide),
    (table_static_alias_spec _ (cs "k") _).2 (by decide)⟩

/-! ### Claim C6 -/

/-- C6: for every lookup key with no at-sign the virtual decoder returns
success with no record whatever the raw value is; for every key containing
an at-sign it runs the same comma-split, trim and parse pipeline as the
alias decoder, producing the identical expansion nodes in token order and
the identical node count, and it succeeds exactly when the alias decoder
succeeds.  (The numeric code of the failure case differs between the two
decoders — 0 against -1 — which is settled under C3.) -/
theorem table_static_virtual_spec {α : Type} (ap : List Char → Option α)
    (key line : List Char) :
    (strchr key '@' = none → table_static_virtual ap key line = (1, none)) ∧
    ((strchr key '@').isSome →
      ((table_static_virtual ap key line).2.map TableVirtual.expand
        = (table_static_alias ap key line).2.map TableAlias.expand) ∧
      ((table_static_virtual ap key line).2.map TableVirtual.nbnodes
        = (table_static_alias ap key line).2.map TableAlias.nbnodes) ∧
      ((table_static_virtual ap key line).1 = 1 ↔
        (table_static_alias ap key line).1 = 1)) := by
  constructor
  · intro hk
    simp [table_static_virtual, hk]
  · intro hk
    have hk2 : ¬ strchr key '@' = none := by
      intro hc
      rw [hc] at hk
      exact Bool.noConfusion hk
    rcases hrec : table_static_tokens ap (strsepList line) with _ | xs <;>
      simp [table_static_virtual, table_static_alias, hk2, hrec]

/-- Witness for C6: a domain-only key succeeds with no record, and a
user-qualified key yields the same nodes as the alias decoder. -/
theorem table_static_virtual_spec_witness :
    table_static_virtual (fun s : List Char => some s) (cs "example.com")
        (cs "whatever") = (1, none) ∧
    ((table_static_virtual (fun s : List Char => some s)
        (cs "bob@example.com") (cs "bob@other")).2.map TableVirtual.expand
      = (table_static_alias (fun s : List Char => some s)
        (cs "bob@example.com") (cs "bob@other")).2.map TableAlias.expand) :=
  ⟨(table_static_virtual_spec (fun s : List Char => some s) (cs "example.com")
      (cs "whatever")).1 (by decide),
    ((table_static_virtual_spec (fun s : List Char => some s)
      (cs "bob@example.com") (cs "bob@other")).2 (by decide)).1⟩

/-! ### Claim C7 -/

lemma find?_append_first {γ : Type} (p : γ → Bool) (pre : List γ) (e : γ)
    (post : List γ) (hpre : ∀ x ∈ pre, p x = false) (he : p e = true) :
    (pre ++ e :: post).find? p = some e := by
  induction pre with
  | nil =>
    simpa using List.find?_cons_of_pos post he
  | cons a rest ih =>
    have ha : p a = false := hpre a (by simp)
    simp only [List.cons_append]
    rw [List.find?_cons_of_neg _ (by simp [ha])]
    exact ih (fun x hx => hpre x (by simp [hx]))

/-- C7: the static lookup scans the entries in insertion order; when no
entry key equals the lookup key it returns the not-found result `(0, none)`
(distinct from the error code -1), and otherwise it duplicates the raw
value of the FIRST matching entry — even when later entries share the same
key — and returns exactly what the decoder selected by the requested kind
produces on that value. -/
theorem table_static_lookup_spec {α β : Type} (ap : List Char → Option α)
    (tp : List Char → Option β) (ucap pcap : Nat) (m : Table)
    (key : List Char) (kind : TableService) :
    ((∀ e ∈ m.t_contents, e.me_key ≠ key) →
      table_static_lookup ap tp ucap pcap m key kind false = (0, none)) ∧
    (∀ pre e post, m.t_contents = pre ++ e :: post → e.me_key = key →
      (∀ x ∈ pre, x.me_key ≠ key) →
      table_static_lookup ap tp ucap pcap m key kind false
        = table_static_decode ap tp ucap pcap key e.me_val kind) := by
  constructor
  · intro h
    have hf : m.t_contents.find? (fun e => e.me_key == key) = none := by
      rw [List.find?_eq_none]
      intro x hx
      simpa using h x hx
    simp [table_static_lookup, hf]
  · intro pre e post hsplit he hpre
    have hf : m.t_contents.find? (fun e => e.me_key == key) = some e := by
      rw [hsplit]
      apply find?_append_first
      · intro x hx
        simpa using hpre x hx
      · simpa using he
    simp [table_static_lookup, hf]

/-- Witness for C7: with entries for keys b, a, a in that order, looking up
key a decodes the value of the FIRST entry with key a. -/
theorem table_static_lookup_spec_witness :
    table_static_lookup (α := List Char) (β := Unit) (fun s => some s)
        (fun _ => none) 1024 1024
        ⟨cs "T", 1, [⟨cs "b", cs "vb"⟩, ⟨cs "a", cs "v1"⟩, ⟨cs "a", cs "v2"⟩]⟩
        (cs "a") TableService.K_ALIAS false
      = table_static_decode (fun s => some s) (fun _ => none) 1024 1024
          (cs "a") (cs "v1") TableService.K_ALIAS :=
  (table_static_lookup_spec (fun s => some s) (fun _ => none) 1024 1024
      ⟨cs "T", 1, [⟨cs "b", cs "vb"⟩, ⟨cs "a", cs "v1"⟩, ⟨cs "a", cs "v2"⟩]⟩
      (cs "a") TableService.K_ALIAS).2
    [⟨cs "b", cs "vb"⟩] ⟨cs "a", cs "v1"⟩ [⟨cs "a", cs "v2"⟩]
    rfl rfl (by decide)

/-! ### Claim C8 -/

lemma compare_loop_all_false (key : List Char)
    (func : List Char → List Char → Bool) (l : List Mapel)
    (h : ∀ e ∈ l, func key e.me_key = false) :
    table_static_compare_loop key func l = false ∧
    table_static_compare_calls key func l = l.map Mapel.me_key := by
  induction l with
  | nil => simp [table_static_compare_loop, table_static_compare_calls]
  | cons e rest ih =>
    have he := h e (by simp)
    have ihr := ih (fun x hx => h x (by simp [hx]))
    simp [table_static_compare_loop, table_static_compare_calls, he, ihr.1,
      ihr.2]

lemma compare_loop_first (key : List Char)
    (func : List Char → List Char → Bool) (pre : List Mapel) (e : Mapel)
    (post : List Mapel) (hpre : ∀ x ∈ pre, func key x.me_key = false)
    (he : func key e.me_key = true) :
    table_static_compare_loop key func (pre ++ e :: post) = true ∧
    table_static_compare_calls key func (pre ++ e :: post)
      = pre.map Mapel.me_key ++ [e.me_key] := by
  induction pre with
  | nil =>
    simp [table_static_compare_loop, table_static_compare_calls, he]
  | cons a rest ih =>
    have ha := hpre a (by simp)
    have ihr := ih (fun x hx => hpre x (by simp [hx]))
    simp [table_static_compare_loop, table_static_compare_calls, ha, ihr.1,
      ihr.2]

lemma db_compare_loop_all_false (key : List Char)
    (func : List Char → List Char → Bool)
    (l : List (List Char × List Char))
    (h : ∀ e ∈ l, func key e.1 = false) :
    table_db_compare_loop key func l = false ∧
    table_db_compare_calls key func l = l.map Prod.fst := by
  induction l with
  | nil => simp [table_db_compare_loop, table_db_compare_calls]
  | cons e rest ih =>
    have he := h e (by simp)
    have ihr := ih (fun x hx => h x (by simp [hx]))
    simp [table_db_compare_loop, table_db_compare_calls, he, ihr.1, ihr.2]

lemma db_compare_loop_first (key : List Char)
    (func : List Char → List Char → Bool)
    (pre : List (List Char × List Char)) (e : List Char × List Char)
    (post : List (List Char × List Char))
    (hpre : ∀ x ∈ pre, func key x.1 = false) (he : func key e.1 = true) :
    table_db_compare_loop key func (pre ++ e :: post) = true ∧
    table_db_compare_calls key func (pre ++ e :: post)
      = pre.map Prod.fst ++ [e.1] := by
  induction pre with
  | nil =>
    simp [table_db_compare_loop, table_db_compare_calls, he]
  | cons a rest ih =>
    have ha := hpre a (by simp)
    have ihr := ih (fun x hx => hpre x (by simp [hx]))
    simp [table_db_compare_loop, table_db_compare_calls, ha, ihr.1, ihr.2]

/-- C8: for both backends, `compare` invokes the caller-supplied predicate
on the pair of the lookup key and each stored entry key in storage order;
it returns true right at the first entry on which the predicate holds —
the instrumented call lists show the predicate is never invoked on any
later entry — and it returns false after invoking the predicate on every
entry when none matches. -/
theorem compare_first_match_spec (m : Table)
    (db : List (List Char × List Char)) (key : List Char)
    (kind : TableService) (func : List Char → List Char → Bool) :
    ((∀ e ∈ m.t_contents, func key e.me_key = false) →
      table_static_compare m key kind func = false ∧
      table_static_compare_calls key func m.t_contents
        = m.t_contents.map Mapel.me_key) ∧
    (∀ pre e post, m.t_contents = pre ++ e :: post →
      (∀ x ∈ pre, func key x.me_key = false) → func key e.me_key = true →
      table_static_compare m key kind func = true ∧
      table_static_compare_calls key func m.t_contents
        = pre.map Mapel.me_key ++ [e.me_key]) ∧
    ((∀ e ∈ db, func key e.1 = false) →
      table_db_compare db key kind func = false ∧
      table_db_compare_calls key func db = db.map Prod.fst) ∧
    (∀ pre e post, db = pre ++ e :: post →
      (∀ x ∈ pre, func key x.1 = false) → func key e.1 = true →
      table_db_compare db key kind func = true ∧
      table_db_compare_calls key func db = pre.map Prod.fst ++ [e.1]) := by
  refine ⟨?_, ?_, ?_, ?_⟩
  · intro h
    exact compare_loop_all_false key func m.t_contents h
  · intro pre e post hsplit hpre he
    unfold table_static_compare
    rw [hsplit]
    exact compare_loop_first key func pre e post hpre he
  · intro h
    exact db_compare_loop_all_false key func db h
  · intro pre e post hsplit hpre he
    unfold table_db_compare
    rw [hsplit]
    exact db_compare_loop_first key func pre e post hpre he

/-- Witness for C8: with static entries keyed a, b, a2 in insertion order
and a predicate matching any key starting with a, compare returns true
after invoking the predicate on the first entry only. -/
theorem compare_first_match_witness :
    table_static_compare
        ⟨cs "T", 1, [⟨cs "a", cs "1"⟩, ⟨cs "b", cs "2"⟩, ⟨cs "a2", cs "3"⟩]⟩
        (cs "a") TableService.K_ALIAS
        (fun _ ek => ek.take 1 == cs "a") = true ∧
    table_static_compare_calls (cs "a") (fun _ ek => ek.take 1 == cs "a")
        [⟨cs "a", cs "1"⟩, ⟨cs "b", cs "2"⟩, ⟨cs "a2", cs "3"⟩]
      = [cs "a"] := by
  have h := (compare_first_match_spec
      ⟨cs "T", 1, [⟨cs "a", cs "1"⟩, ⟨cs "b", cs "2"⟩, ⟨cs "a2", cs "3"⟩]⟩
      [] (cs "a") TableService.K_ALIAS
      (fun _ ek => ek.take 1 == cs "a")).2.1
    [] ⟨cs "a", cs "1"⟩ [⟨cs "b", cs "2"⟩, ⟨cs "a2", cs "3"⟩]
    rfl (by decide) (by decide)
  exact ⟨h.1, by simpa using h.2⟩

/-! ### Claim C9 -/

/-- C9: a persistent-backend lookup whose key does not fit, together with
its NUL terminator, in the `MAX_LINE_SIZE` key buffer does not produce an
error or a not-found return for the caller: `table_db_get_entry` aborts the
whole process (`errx(1, ...)`), and so the surrounding `table_db_lookup`
never returns. -/
theorem table_db_lookup_long_key_fatal {α β : Type}
    (ap : List Char → Option α) (tp : List Char → Option β)
    (ucap pcap : Nat) (db : List (List Char × List Char)) (key : List Char)
    (kind : TableService) (h : MAX_LINE_SIZE < key.length + 1) :
    table_db_get_entry db key = DbGetResult.fatal ∧
    table_db_lookup ap tp ucap pcap db key kind = DbLookupResult.fatal := by
  have hge : MAX_LINE_SIZE ≤ key.length := by omega
  constructor
  · simp [table_db_get_entry, hge]
  · simp [table_db_lookup, table_db_get_entry, hge]

/-- Witness for C9: a key of exactly 1024 characters (1025 bytes with its
terminator) aborts the process. -/
theorem table_db_lookup_long_key_fatal_witness :
    table_db_get_entry [] (List.replicate 1024 'a') = DbGetResult.fatal ∧
    table_db_lookup (α := Unit) (β := Unit) (fun _ => none) (fun _ => none)
        1024 1024 [] (List.replicate 1024 'a') TableService.K_CREDENTIALS
      = DbLookupResult.fatal :=
  table_db_lookup_long_key_fatal (fun _ => none) (fun _ => none) 1024 1024
    [] (List.replicate 1024 'a') TableService.K_CREDENTIALS
    (by rw [List.length_replicate]; decide)

/-! ### Claim C10 -/

/-- C10: a static lookup invoked with a null out-pointer returns only the
presence indication — code 1 exactly when some entry key equals the lookup
key, code 0 otherwise — hands back no record at all, and its result is
entirely independent of the requested kind and of the decoder parameters,
so no decoding is performed and nothing is allocated for the caller. -/
theorem table_static_lookup_nullout_spec {α β : Type}
    (ap : List Char → Option α) (tp : List Char → Option β)
    (ucap pcap : Nat) (m : Table) (key : List Char) (kind : TableService) :
    ((table_static_lookup ap tp ucap pcap m key kind true).1 = 1 ↔
      ∃ e ∈ m.t_contents, e.me_key = key) ∧
    ((table_static_lookup ap tp ucap pcap m key kind true).1 = 1 ∨
      (table_static_lookup ap tp ucap pcap m key kind true).1 = 0) ∧
    (table_static_lookup ap tp ucap pcap m key kind true).2
      = (none : Option (Record α β)) ∧
    (∀ (ap2 : List Char → Option α) (tp2 : List Char → Option β)
        (ucap2 pcap2 : Nat) (kind2 : TableService),
      table_static_lookup ap2 tp2 ucap2 pcap2 m key kind2 true
        = table_static_lookup ap tp ucap pcap m key kind true) := by
  have hiff : (m.t_contents.find? (fun e => e.me_key == key)).isSome ↔
      ∃ e ∈ m.t_contents, e.me_key = key := by
    rw [List.find?_isSome]
    constructor
    · rintro ⟨x, hx, hb⟩
      exact ⟨x, hx, by simpa using hb⟩
    · rintro ⟨x, hx, hb⟩
      exact ⟨x, hx, by simpa using hb⟩
  refine ⟨?_, ?_, ?_, ?_⟩
  · by_cases hc : (m.t_contents.find? (fun e => e.me_key == key)).isSome
    · simp [table_static_lookup, hc, hiff.mp hc]
    · simp [table_static_lookup, hc]
      exact fun x hx hk => hc (hiff.mpr ⟨x, hx, hk⟩)
  · by_cases hc : (m.t_contents.find? (fun e => e.me_key == key)).isSome
    · exact Or.inl (by simp [table_static_lookup, hc])
    · exact Or.inr (by simp [table_static_lookup, hc])
  · simp [table_static_lookup]
  · intro ap2 tp2 ucap2 pcap2 kind2
    rfl

/-- Witness for C10: a present key yields the presence code 1 through the
null-out-pointer path. -/
theorem table_static_lookup_nullout_witness :
    (table_static_lookup (α := Unit) (β := Unit) (fun _ => none)
        (fun _ => none) 1024 1024 ⟨cs "T", 1, [⟨cs "a", cs "v"⟩]⟩ (cs "a")
        TableService.K_NETADDR true).1 = 1 :=
  (table_static_lookup_nullout_spec (fun _ => none) (fun _ => none) 1024 1024
      ⟨cs "T", 1, [⟨cs "a", cs "v"⟩]⟩ (cs "a")
      TableService.K_NETADDR).1.mpr ⟨⟨cs "a", cs "v"⟩, by simp, rfl⟩

end OpenSMTPD
